import Mathlib

/-!
Shallow embedding of `src/outlier_detection.py` (class `OutlierManager`).

Numbers are modelled as rationals.  The two transcendental external
routines the source calls — `numpy.sqrt` (used by `ndarray.std`,
`StandardScaler` and `calculate_critical_value`) and
`scipy.stats.t.ppf` — are passed as explicit function parameters
(`sq : ℚ → ℚ` and `tp : ℚ → ℤ → ℚ`); every theorem either quantifies
over them or instantiates them with concrete rational stand-ins whose
values at the arguments actually used are documented next to the
definition.  The external `sklearn` anomaly models (`IsolationForest`)
are likewise parameters (`fitP`), since they are collaborators, not code
of this repository.

A dataframe is modelled as its numeric sub-table: an ordered list of
named columns over a positional row index `0 .. n-1`
(`df.select_dtypes(include=np.number)` drops the non-numeric columns
before every detector runs).  Division by zero follows the total-field
convention of `ℚ` (`x / 0 = 0`); the only places the source can divide
by zero are the degenerate score computations of the ESD loop, where
the comparison outcome (`nan > c` is false in IEEE, `0 > c` is false
here for the non-negative critical values involved) agrees.
-/

set_option allowUnsafeReducibility true in
attribute [semireducible] Rat.mul Rat.add Rat.sub Rat.inv Rat.div Rat.neg

/-- Insert a rational into an already sorted list (ascending). -/
def insertSorted (x : ℚ) : List ℚ → List ℚ
  | [] => [x]
  | y :: ys => if x ≤ y then x :: y :: ys else y :: insertSorted x ys

/-- Sort a list of rationals ascending (model of `np.sort`, used by
`np.quantile` / `np.median` which operate on sorted data). -/
def sortQ (xs : List ℚ) : List ℚ := xs.foldr insertSorted []

/-- Model of `np.quantile(ts, q)` with the default linear interpolation:
on the sorted data `s` of length `n`, the virtual index is
`h = q * (n - 1)`; the result interpolates between `s[⌊h⌋]` and the next
entry. -/
def npQuantile (xs : List ℚ) (q : ℚ) : ℚ :=
  let n := xs.length
  let s := sortQ xs
  let h : ℚ := q * ((n : ℚ) - 1)
  let i : ℕ := h.floor.toNat
  let g : ℚ := h - (h.floor : ℚ)
  let lo := s.getD i 0
  let hi := s.getD (min (i + 1) (n - 1)) 0
  lo + g * (hi - lo)

/-- A dataframe restricted to its numeric columns: column name together
with the column values, all columns sharing the row index `0..n-1`. -/
abbrev Df := List (String × List ℚ)

/-- One column of `OutlierManager.detect_outlier_iqr`: quartiles by
linear interpolation, `IQR = q3 - q1`, flag `v > q3 + m*IQR` or
`v < q1 - m*IQR`.  (`q2`, the median, is computed by the source and not
used, as here.) -/
def iqrMaskCol (iqr_multiple : ℚ) (ts : List ℚ) : List Bool :=
  let q1 := npQuantile ts (1/4)
  let _q2 := npQuantile ts (1/2)
  let q3 := npQuantile ts (3/4)
  let iqr := q3 - q1
  let higher_bound := q3 + iqr_multiple * iqr
  let lower_bound := q1 - iqr_multiple * iqr
  ts.map (fun v => decide (v > higher_bound) || decide (v < lower_bound))

/-- `OutlierManager.detect_outlier_iqr`: apply the IQR test to every
numeric column, keeping the row index. -/
def detect_outlier_iqr (iqr_multiple : ℚ) (df : Df) : List (String × List Bool) :=
  df.map (fun p => (p.1, iqrMaskCol iqr_multiple p.2))

/-- One column of `OutlierManager.detect_outlier_sd`: flag `v` when
`v > mean + k*std` or `v < mean - k*std`, with `std = sqrt(variance)`
the numpy population standard deviation (`ndarray.std`, `ddof = 0`:
the mean of squared deviations, divided by the count). -/
def sdMaskCol (sq : ℚ → ℚ) (sd_multiple : ℚ) (ts : List ℚ) : List Bool :=
  let mean := ts.sum / (ts.length : ℚ)
  let std := sq ((ts.map (fun x => (x - mean) ^ 2)).sum / (ts.length : ℚ))
  let higher_bound := mean + sd_multiple * std
  let lower_bound := mean - sd_multiple * std
  ts.map (fun v => decide (v > higher_bound) || decide (v < lower_bound))

/-- `OutlierManager.detect_outlier_sd` over the whole numeric table. -/
def detect_outlier_sd (sq : ℚ → ℚ) (sd_multiple : ℚ) (df : Df) : List (String × List Bool) :=
  df.map (fun p => (p.1, sdMaskCol sq sd_multiple p.2))

/-- The `outlier_fraction` argument of the isolation-forest detector:
either a Python string or a number. -/
inductive OFrac where
  | str (s : String)
  | num (q : ℚ)
deriving DecidableEq

/-- The keyword arguments forwarded to `IsolationForest(**kwargs)`.
The two entries the detector itself writes are explicit fields;
everything else the caller may pass rides in `extra`. -/
structure IFKwargs where
  contamination : Option OFrac
  random_state : Option ℤ
  extra : List (String × ℚ)
deriving DecidableEq

/-- Model of `StandardScaler().fit_transform` on a single column:
centre by the mean and divide by the population standard deviation;
sklearn substitutes a unit scale when the variance is zero. -/
def standardScale (sq : ℚ → ℚ) (ts : List ℚ) : List ℚ :=
  let mean := ts.sum / (ts.length : ℚ)
  let var := (ts.map (fun x => (x - mean) ^ 2)).sum / (ts.length : ℚ)
  let scale := if var = 0 then 1 else sq var
  ts.map (fun x => (x - mean) / scale)

/-- One column of `detect_outlier_isolation_forest`: scale the column,
overwrite `kwargs["contamination"]` with `outlier_fraction` and
`kwargs["random_state"]` with `42`, fit-predict the external model, and
map each prediction `p` through `1 - clip(p, 0, None) ≠ 0` (so the
anomaly label `-1` becomes `true` and the inlier label `1` false). -/
def isoMaskCol (sq : ℚ → ℚ) (fitP : IFKwargs → List ℚ → List ℤ)
    (outlier_fraction : OFrac) (kwargs : IFKwargs) (ts : List ℚ) : List Bool :=
  let scaled := standardScale sq ts
  let kwargs2 := { kwargs with contamination := some outlier_fraction, random_state := some 42 }
  let pred := fitP kwargs2 scaled
  pred.map (fun p => decide (1 - max p 0 ≠ 0))

/-- `OutlierManager.detect_outlier_isolation_forest`: the two `assert`
statements run before any column is processed; a failed assertion is an
`AssertionError` carrying the shown message, modelled as `Except.error`. -/
def detect_outlier_isolation_forest (sq : ℚ → ℚ) (fitP : IFKwargs → List ℚ → List ℤ)
    (df : Df) (outlier_fraction : OFrac) (kwargs : IFKwargs) :
    Except String (List (String × List Bool)) :=
  match outlier_fraction with
  | .str s =>
      if s = "auto" then
        .ok (df.map (fun p => (p.1, isoMaskCol sq fitP outlier_fraction kwargs p.2)))
      else .error "outlier_fraction must be between 0 and 0.5 or auto"
  | .num q =>
      if 0 ≤ q ∧ q ≤ 1/2 then
        .ok (df.map (fun p => (p.1, isoMaskCol sq fitP outlier_fraction kwargs p.2)))
      else .error "outlier_fraction must be between 0 and 0.5"

/-- Validity of `outlier_fraction`, written from the specification: a
numeric value must lie in `[0, 0.5]`, otherwise the value must be the
string `"auto"`. -/
def specValidFraction : OFrac → Bool
  | .str s => s = "auto"
  | .num q => decide (0 ≤ q ∧ q ≤ 1/2)

/-- A numpy masked array of rationals: entries keep their position, a
masked entry is `none`. -/
abbrev MaArr := List (Option ℚ)

/-- The unmasked (active) values of a masked array, in order. -/
def maVals (ts : MaArr) : List ℚ := ts.filterMap id

/-- Mean of a masked array: numpy averages the active values only. -/
def maMean (ts : MaArr) : ℚ := (maVals ts).sum / ((maVals ts).length : ℚ)

/-- Variance of a masked array with numpy default `ddof = 0`:
the mean of the squared deviations of the active values. -/
def maVar (ts : MaArr) : ℚ :=
  ((maVals ts).map (fun x => (x - maMean ts) ^ 2)).sum / ((maVals ts).length : ℚ)

/-- Median of a plain list, as `np.median`: middle of the sorted data,
or the average of the two middle entries when the length is even. -/
def npMedian (xs : List ℚ) : ℚ :=
  let n := xs.length
  let s := sortQ xs
  if n % 2 = 1 then s.getD (n / 2) 0
  else (s.getD (n / 2 - 1) 0 + s.getD (n / 2) 0) / 2

/-- The per-position scores of `calculate_test_statistic`: the hybrid
branch uses `|ts - median| / MAD`, the default branch
`|ts - mean| / std`; arithmetic on a masked entry stays masked. -/
def maScores (sq : ℚ → ℚ) (ts : MaArr) (hybrid : Bool) : MaArr :=
  if hybrid then
    let median := npMedian (maVals ts)
    let mad := npMedian ((maVals ts).map (fun x => |x - median|))
    ts.map (Option.map (fun x => |(x - median) / mad|))
  else
    ts.map (Option.map (fun x => |(x - maMean ts) / sq (maVar ts)|))

/-- One comparison step of `np.argmax`: keep the current best
(position, value) pair, replacing it only on a strictly larger value —
ties keep the first occurrence, numpy's documented behaviour. -/
def argmaxStep (acc : Option (ℕ × ℚ)) (p : ℕ × Option ℚ) : Option (ℕ × ℚ) :=
  match p.2 with
  | none => acc
  | some v =>
    match acc with
    | none => some (p.1, v)
    | some (j, m) => if m < v then some (p.1, v) else some (j, m)

/-- `np.argmax` on a masked array: the first position attaining the
maximum over the active entries (masked entries are filled with the
minimal fill value, so they never win); `0` when everything is masked. -/
def maArgmax (xs : MaArr) : ℕ :=
  ((xs.enum.foldl argmaxStep none).map Prod.fst).getD 0

/-- `OutlierManager.calculate_test_statistic`: the index of the top
score and the score itself (`none` models the `np.ma.masked` constant
returned when every entry is masked). -/
def calculate_test_statistic (sq : ℚ → ℚ) (ts : MaArr) (hybrid : Bool) : ℕ × Option ℚ :=
  let scores := maScores sq ts hybrid
  let max_idx := maArgmax scores
  (max_idx, scores.getD max_idx none)

/-- `OutlierManager.calculate_critical_value`, the Grubbs critical
value: `t` is the two-sided Student-t quantile
`t.ppf(1 - alpha/(2*size), size - 2)` (the external `tp`), and the
value is `(size - 1) * t / sqrt(size^2 - size*2 + size*t^2)`. -/
def calculate_critical_value (sq : ℚ → ℚ) (tp : ℚ → ℤ → ℚ) (size : ℤ) (alpha : ℚ) : ℚ :=
  let t_dist := tp (1 - alpha / (2 * (size : ℚ))) (size - 2)
  ((size : ℚ) - 1) * t_dist / sq ((size : ℚ) ^ 2 - (size : ℚ) * 2 + (size : ℚ) * t_dist ^ 2)

/-- The loop state of `detect_outlier_generalized_esd` for one column:
the working masked copy of the column, the recorded candidate positions
(`test_statistics`), the confirmed count (`num_outliers`) and the
iteration counter (`curr`). -/
structure EsdState where
  ts : MaArr
  stats : List ℕ
  numOut : ℕ
  curr : ℕ
deriving DecidableEq

/-- The comparison `test_val > critical_val` made by one ESD
iteration on state `s`: the critical value is taken for
`len(ts) - curr` points (`len(ts)` is the full, constant length of the
masked array).  A fully masked test value (`none`, numpy's falsy
`masked` constant) never passes. -/
def esdPassOf (sq : ℚ → ℚ) (tp : ℚ → ℤ → ℚ) (alpha : ℚ) (hybrid : Bool)
    (s : EsdState) : Bool :=
  match (calculate_test_statistic sq s.ts hybrid).2 with
  | some v =>
    decide (calculate_critical_value sq tp ((s.ts.length : ℤ) - (s.curr : ℤ)) alpha < v)
  | none => false

/-- One iteration of the ESD loop: take the top-score candidate,
compare it with the critical value, reset `num_outliers` to `curr`
when the test passes, record the candidate, and mask its position
regardless of the outcome. -/
def esdStep (sq : ℚ → ℚ) (tp : ℚ → ℤ → ℚ) (alpha : ℚ) (hybrid : Bool)
    (s : EsdState) : EsdState :=
  let r := calculate_test_statistic sq s.ts hybrid
  { ts := s.ts.set r.1 none
    stats := s.stats ++ [r.1]
    numOut := if esdPassOf sq tp alpha hybrid s then s.curr else s.numOut
    curr := s.curr + 1 }

/-- The loop state after `m` iterations of the ESD loop on `col`
(the loop body runs `max_anomalies` times in the source). -/
def esdStateAt (sq : ℚ → ℚ) (tp : ℚ → ℤ → ℚ) (alpha : ℚ) (hybrid : Bool)
    (col : List ℚ) : ℕ → EsdState
  | 0 => ⟨col.map some, [], 0, 0⟩
  | m + 1 => esdStep sq tp alpha hybrid (esdStateAt sq tp alpha hybrid col m)

/-- Whether the Grubbs test passes at iteration `k` of the run
(the comparison made by `esdStep` on the state after `k` iterations). -/
def esdPass (sq : ℚ → ℚ) (tp : ℚ → ℤ → ℚ) (alpha : ℚ) (hybrid : Bool)
    (col : List ℚ) (k : ℕ) : Bool :=
  esdPassOf sq tp alpha hybrid (esdStateAt sq tp alpha hybrid col k)

/-- The candidate position examined at iteration `k` of the run. -/
def esdCand (sq : ℚ → ℚ) (tp : ℚ → ℤ → ℚ) (alpha : ℚ) (hybrid : Bool)
    (col : List ℚ) (k : ℕ) : ℕ :=
  (calculate_test_statistic sq (esdStateAt sq tp alpha hybrid col k).ts hybrid).1

/-- The last iteration index below `m` at which the test passed
(`0` when it never passed, and also when it passed at iteration 0
only — the two cases `num_outliers` cannot distinguish). -/
def esdLastPass (sq : ℚ → ℚ) (tp : ℚ → ℤ → ℚ) (alpha : ℚ) (hybrid : Bool)
    (col : List ℚ) (m : ℕ) : ℕ :=
  (List.range m).foldl (fun a k => if esdPass sq tp alpha hybrid col k then k else a) 0

/-- `anomalous_indices` after the loop:
`test_statistics[: num_outliers + 1]` when `num_outliers > 0`, else
`[]`. -/
def esdAnomalous (sq : ℚ → ℚ) (tp : ℚ → ℤ → ℚ) (max_anomalies : ℕ) (alpha : ℚ)
    (hybrid : Bool) (col : List ℚ) : List ℕ :=
  let f := esdStateAt sq tp alpha hybrid col max_anomalies
  if 0 < f.numOut then f.stats.take (f.numOut + 1) else []

/-- One column of `detect_outlier_generalized_esd`.  The result models
`np.zeros_like(ts)` on the final masked array — which inherits the
mask, so every examined position stays masked (`none`, a NaN once the
column lands in the pandas frame) unless the fancy-indexing assignment
`outlier_mask[anomalous_indices] = 1` unmasks it again. -/
def esdMaskCol (sq : ℚ → ℚ) (tp : ℚ → ℤ → ℚ) (max_anomalies : ℕ) (alpha : ℚ)
    (hybrid : Bool) (col : List ℚ) : List (Option Bool) :=
  let f := esdStateAt sq tp alpha hybrid col max_anomalies
  let anomalous_indices := esdAnomalous sq tp max_anomalies alpha hybrid col
  (List.range col.length).map (fun i =>
    if i ∈ anomalous_indices then some true
    else if f.ts.getD i none = none then none
    else some false)

/-- `OutlierManager.detect_outlier_generalized_esd` over the table. -/
def detect_outlier_generalized_esd (sq : ℚ → ℚ) (tp : ℚ → ℤ → ℚ)
    (max_anomalies : ℕ) (alpha : ℚ) (hybrid : Bool) (df : Df) :
    List (String × List (Option Bool)) :=
  df.map (fun p => (p.1, esdMaskCol sq tp max_anomalies alpha hybrid p.2))

/-- Concrete rational stand-in for `np.sqrt` at the arguments the
reference runs below evaluate it on (true values in parentheses):
`sqrt(3/16) = 0.43301…` (here `433/1000`), `sqrt(332) = 18.22…`
(here `18`), `sqrt(4335) = 65.84…` (here `66`); `0` elsewhere
(in particular `sqrt 0 = 0`).  Each comparison these runs make is
robust to the rounding: the compared quantities differ by far more
than the approximation error. -/
def sqrtRef (q : ℚ) : ℚ :=
  if q = 3/16 then 433/1000
  else if q = 332 then 18
  else if q = 4335 then 66
  else 0

/-- Concrete rational stand-in for `scipy.stats.t.ppf` at the
arguments the reference runs below use (true values in parentheses):
`t.ppf(159/160, 2) = 8.860…` (here `9`) and `t.ppf(119/120, 1) = 38.19…`
(here `38`); `0` elsewhere. -/
def tppfRef (p : ℚ) (df : ℤ) : ℚ :=
  if p = 159/160 ∧ df = 2 then 9
  else if p = 119/120 ∧ df = 1 then 38
  else 0

deriving instance DecidableEq for Except

/-- The constructor arguments of the `IsolationForest` fitted by
`detect_outlier_multivariable_isolation_forest` (the source fixes
`max_samples=0.4`, `max_features=1.0`, `bootstrap=True`). -/
structure IsoForestParams where
  n_estimators : ℕ
  max_samples : ℚ
  contamination : ℚ
  max_features : ℚ
  bootstrap : Bool
  random_state : ℤ
deriving DecidableEq

/-- `OutlierManager.detect_outlier_multivariable_isolation_forest`:
fit one model over all numeric columns and predict one label per row.
The outlier-count report indexes `value_counts()[-1]`; when no row is
predicted `-1`, that label lookup raises a `KeyError` (modelled as
`Except.error`) before the mask is built.  Otherwise the returned mask
maps label `-1` to `true`.  The optional 3-D PCA plot is a pure output
sink and does not affect the mask. -/
def detect_outlier_multivariable_isolation_forest
    (fitP : IsoForestParams → List (List ℚ) → List ℤ) (df : Df)
    (contaminacion : ℚ) (n_estimators : ℕ) (random_state : ℤ) :
    Except String (List Bool) :=
  let params : IsoForestParams :=
    ⟨n_estimators, 2/5, contaminacion, 1, true, random_state⟩
  let outliers := fitP params (df.map Prod.snd)
  if (-1 : ℤ) ∈ outliers then
    .ok (outliers.map (fun x => decide (x = -1)))
  else .error "KeyError: -1"

/-- One `(column, method)` cell of the summary report: the flagged
percentage and the flagged row keys. -/
structure SummaryEntry where
  pct : ℚ
  idx : List ℕ
deriving DecidableEq

/-- The four per-method cells the summary records for one column. -/
structure ColSummary where
  iqr : SummaryEntry
  sd : SummaryEntry
  iso : SummaryEntry
  esd : SummaryEntry
deriving DecidableEq

/-- The `max_anomalies` / `alpha` / `hybrid` configuration dictionary
passed to the generalized-ESD leg of `summary`. -/
structure EsdParams where
  max_anomalies : ℕ
  alpha : ℚ
  hybrid : Bool
deriving DecidableEq

/-- Percentage of a boolean mask column, as pandas
`mask.mean() * 100`: the flagged count over the column length. -/
def pctB (mask : List Bool) : ℚ :=
  ((mask.countP id : ℚ) / (mask.length : ℚ)) * 100

/-- Row keys flagged `True` in a boolean mask column, as
`mask[mask == True].index`. -/
def idxB (mask : List Bool) : List ℕ :=
  mask.enum.filterMap (fun p => if p.2 then some p.1 else none)

/-- Percentage of a nullable mask column, as pandas `mean()` with its
default `skipna=True`: NaN entries are dropped, so the divisor is the
non-null count, not the row count. -/
def pctOB (mask : List (Option Bool)) : ℚ :=
  let vs := mask.filterMap id
  ((vs.countP id : ℚ) / ((vs.length : ℚ))) * 100

/-- Row keys flagged `True` in a nullable mask column (`x == True` is
false on NaN, so null entries are never selected). -/
def idxOB (mask : List (Option Bool)) : List ℕ :=
  mask.enum.filterMap (fun p => if p.2 = some true then some p.1 else none)

/-- `OutlierManager.summary`: run the IQR, SD, univariate
isolation-forest and generalized-ESD detectors and record, per numeric
column and per method, the flagged percentage (`mean() * 100` of that
method's mask column) and the flagged row keys.  The isolation-forest
leg is called with no extra kwargs; its validation failure aborts the
whole call.  Each detector maps the same column list, so the report is
assembled column-wise. -/
def summary (sq : ℚ → ℚ) (tp : ℚ → ℤ → ℚ) (fitP : IFKwargs → List ℚ → List ℤ)
    (df : Df) (iqr_multiple sd_multiple : ℚ) (isolation_outlier_fraction : OFrac)
    (generalized_esd : EsdParams) : Except String (List (String × ColSummary)) :=
  match detect_outlier_isolation_forest sq fitP df isolation_outlier_fraction
      ⟨none, none, []⟩ with
  | .error e => .error e
  | .ok _ =>
    .ok (df.map (fun p =>
      let iqrMask := iqrMaskCol iqr_multiple p.2
      let sdMask := sdMaskCol sq sd_multiple p.2
      let isoMask := isoMaskCol sq fitP isolation_outlier_fraction ⟨none, none, []⟩ p.2
      let esdMask := esdMaskCol sq tp generalized_esd.max_anomalies generalized_esd.alpha
        generalized_esd.hybrid p.2
      (p.1,
        { iqr := ⟨pctB iqrMask, idxB iqrMask⟩
          sd := ⟨pctB sdMask, idxB sdMask⟩
          iso := ⟨pctB isoMask, idxB isoMask⟩
          esd := ⟨pctOB esdMask, idxOB esdMask⟩ })))

/-- Concrete rational stand-in for `np.sqrt` on the summary reference
run (true values in parentheses): `sqrt(7/12) = 0.7637…` (here `3/4`),
`sqrt(174) = 13.19…` (here `13`), `sqrt(4/25) = 2/5` (exact),
`sqrt(195) = 13.96…` (here `14`), `sqrt(332) = 18.22…` (here `18`);
`0` elsewhere.  Every comparison made on the run is robust to the
rounding. -/
def sqrtC4 (q : ℚ) : ℚ :=
  if q = 7/12 then 3/4
  else if q = 174 then 13
  else if q = 4/25 then 2/5
  else if q = 195 then 14
  else if q = 332 then 18
  else 0

/-- Concrete rational stand-in for `scipy.stats.t.ppf` on the summary
reference run (true values in parentheses): `t.ppf(239/240, 4) = 4.93…`
(here `5`), `t.ppf(199/200, 3) = 5.84…` (here `6`),
`t.ppf(159/160, 2) = 8.86…` (here `9`); `0` elsewhere. -/
def tppfC4 (p : ℚ) (df : ℤ) : ℚ :=
  if p = 239/240 ∧ df = 4 then 5
  else if p = 199/200 ∧ df = 3 then 6
  else if p = 159/160 ∧ df = 2 then 9
  else 0

/-- External model stand-in for the summary reference run: no row is
an anomaly. -/
def fitPC4 : IFKwargs → List ℚ → List ℤ := fun _ ts => ts.map (fun _ => 1)

/-- C6: on the single-column dataset `[1,2,3,4,100]` with
`iqr_multiple = 1.5`, the quartiles computed by linear interpolation
are `Q1 = 2` and `Q3 = 4`, and the IQR detector flags exactly the
value `100`. -/
theorem iqr_reference_column_flags_only_100 :
    npQuantile [1, 2, 3, 4, 100] (1/4) = 2 ∧
    npQuantile [1, 2, 3, 4, 100] (3/4) = 4 ∧
    detect_outlier_iqr (3/2) [("x", [1, 2, 3, 4, 100])] =
      [("x", [false, false, false, false, true])] := by
  refine ⟨by decide, by decide, by decide⟩

/-- C5: on a column whose values are all equal (population standard
deviation zero) the SD detector returns an all-false mask; the
computation involves no division by the deviation, and `sqrt 0 = 0`
(hypothesis `hsq`) makes both bounds collapse onto the mean. -/
theorem sd_zero_variance_mask_all_false (sq : ℚ → ℚ) (k : ℚ) (col : List ℚ) (c : ℚ)
    (hsq : sq 0 = 0) (hc : ∀ x ∈ col, x = c) :
    sdMaskCol sq k col = List.replicate col.length false := by
  have hlen : (sdMaskCol sq k col).length = col.length := by simp [sdMaskCol]
  rw [← hlen]
  apply List.eq_replicate_of_mem
  intro b hb
  simp only [sdMaskCol, List.mem_map] at hb
  obtain ⟨v, hv, rfl⟩ := hb
  have hvc := hc v hv
  subst hvc
  have hne : col ≠ [] := by rintro rfl; simp at hv
  have hl0 : ((col.length : ℚ)) ≠ 0 := by
    exact_mod_cast Nat.pos_iff_ne_zero.mp (List.length_pos.mpr hne)
  have hmean : col.sum / (col.length : ℚ) = v := by
    have hs : col.sum = (col.length : ℚ) * v := by
      rw [List.sum_eq_card_nsmul col v hc, nsmul_eq_mul]
    rw [hs, mul_div_cancel_left₀ v hl0]
  simp only [hmean]
  have hvar : (col.map (fun x => (x - v) ^ 2)).sum = 0 := by
    apply List.sum_eq_zero
    intro y hy
    simp only [List.mem_map] at hy
    obtain ⟨w, hw, rfl⟩ := hy
    rw [hc w hw]
    ring
  simp only [hvar, zero_div, hsq, mul_zero, add_zero, sub_zero]
  simp

/-- C5 witness: a concrete constant column evaluated through the
theorem. -/
theorem sd_zero_variance_mask_all_false_witness :
    (fun _ : ℚ => (0:ℚ)) 0 = 0 ∧ (∀ x ∈ [(5:ℚ), 5, 5], x = 5) ∧
    sdMaskCol (fun _ => 0) 2 [5, 5, 5] = List.replicate 3 false :=
  ⟨rfl, by decide, sd_zero_variance_mask_all_false (fun _ => 0) 2 [5, 5, 5] 5 rfl (by decide)⟩

/-- C7: the univariate isolation-forest detector fails exactly when
`outlier_fraction` is invalid (a string other than `"auto"`, or a
number outside `[0, 1/2]`), and when it fails the external model is
never consulted: the result does not depend on the fit-predict
function. -/
theorem iso_forest_validation_exact (sq : ℚ → ℚ) (f g : IFKwargs → List ℚ → List ℤ)
    (df : Df) (of : OFrac) (kw : IFKwargs) :
    (detect_outlier_isolation_forest sq f df of kw).isOk = specValidFraction of ∧
    (specValidFraction of = false →
      detect_outlier_isolation_forest sq f df of kw =
        detect_outlier_isolation_forest sq g df of kw) := by
  constructor
  · cases of with
    | str s =>
      simp only [detect_outlier_isolation_forest, specValidFraction]
      by_cases h : s = "auto"
      · rw [if_pos h, decide_eq_true h]
        simp [Except.isOk, Except.toBool]
      · rw [if_neg h, decide_eq_false h]
        simp [Except.isOk, Except.toBool]
    | num q =>
      simp only [detect_outlier_isolation_forest, specValidFraction]
      by_cases hc : (0:ℚ) ≤ q ∧ q ≤ 1/2
      · rw [if_pos hc, decide_eq_true hc]
        simp [Except.isOk, Except.toBool]
      · rw [if_neg hc, decide_eq_false hc]
        simp [Except.isOk, Except.toBool]
  · intro hbad
    cases of with
    | str s =>
      have h : ¬ s = "auto" := by
        intro h
        rw [specValidFraction, decide_eq_true h] at hbad
        exact Bool.true_eq_false.mp hbad
      simp only [detect_outlier_isolation_forest]
      rw [if_neg h, if_neg h]
    | num q =>
      have h : ¬ ((0:ℚ) ≤ q ∧ q ≤ 1/2) := by
        intro hc
        rw [specValidFraction, decide_eq_true hc] at hbad
        exact Bool.true_eq_false.mp hbad
      simp only [detect_outlier_isolation_forest]
      rw [if_neg h, if_neg h]

/-- C7 witness: `outlier_fraction = 2` is rejected whatever the model
does, `outlier_fraction = "auto"` is accepted. -/
theorem iso_forest_validation_exact_witness :
    (detect_outlier_isolation_forest (fun _ => 0) (fun _ _ => []) [] (.num 2)
      ⟨none, none, []⟩).isOk = specValidFraction (.num 2) ∧
    detect_outlier_isolation_forest (fun _ => 0) (fun _ _ => []) [] (.num 2) ⟨none, none, []⟩ =
      detect_outlier_isolation_forest (fun _ => 0) (fun _ _ => [1]) [] (.num 2) ⟨none, none, []⟩ :=
  ⟨(iso_forest_validation_exact (fun _ => 0) (fun _ _ => []) (fun _ _ => [1]) [] (.num 2)
      ⟨none, none, []⟩).1,
   (iso_forest_validation_exact (fun _ => 0) (fun _ _ => []) (fun _ _ => [1]) [] (.num 2)
      ⟨none, none, []⟩).2 (by decide)⟩

/-- C8: caller-supplied `contamination` and `random_state` kwargs are
overwritten (with `outlier_fraction` and `42`) before the model is
built, so two calls whose kwargs agree on everything else return the
same masks. -/
theorem iso_forest_ignores_seed_kwargs (sq : ℚ → ℚ) (f : IFKwargs → List ℚ → List ℤ)
    (df : Df) (of : OFrac) (k1 k2 : IFKwargs) (h : k1.extra = k2.extra) :
    detect_outlier_isolation_forest sq f df of k1 =
      detect_outlier_isolation_forest sq f df of k2 := by
  have hcol : ∀ ts, isoMaskCol sq f of k1 ts = isoMaskCol sq f of k2 ts := by
    intro ts
    cases k1
    cases k2
    simp only [isoMaskCol]
    simp_all
  cases of <;> simp [detect_outlier_isolation_forest, hcol]

/-- C8 witness: two kwargs dictionaries differing only in their
`contamination` and `random_state` entries yield identical results. -/
theorem iso_forest_ignores_seed_kwargs_witness :
    (⟨some (.num (1/4)), some 7, []⟩ : IFKwargs).extra = (⟨none, some 9, []⟩ : IFKwargs).extra ∧
    detect_outlier_isolation_forest (fun _ => 0) (fun kw _ => [kw.random_state.getD 0])
        [("a", [1, 2])] (.num 0) ⟨some (.num (1/4)), some 7, []⟩ =
      detect_outlier_isolation_forest (fun _ => 0) (fun kw _ => [kw.random_state.getD 0])
        [("a", [1, 2])] (.num 0) ⟨none, some 9, []⟩ :=
  ⟨rfl, iso_forest_ignores_seed_kwargs (fun _ => 0) (fun kw _ => [kw.random_state.getD 0])
    [("a", [1, 2])] (.num 0) ⟨some (.num (1/4)), some 7, []⟩ ⟨none, some 9, []⟩ rfl⟩

/-- C9: the multivariate isolation-forest detector returns a mask
exactly when the fitted model predicts at least one `-1` label; with no
`-1` among the predictions the `value_counts()[-1]` lookup fails
(`KeyError`) and no mask is returned; a returned mask maps label `-1`
to `true`. -/
theorem multi_iso_forest_requires_an_anomaly (f : IsoForestParams → List (List ℚ) → List ℤ)
    (df : Df) (cont : ℚ) (ne : ℕ) (rs : ℤ) :
    ((detect_outlier_multivariable_isolation_forest f df cont ne rs).isOk = true ↔
      (-1 : ℤ) ∈ f ⟨ne, 2/5, cont, 1, true, rs⟩ (df.map Prod.snd)) ∧
    (∀ m, detect_outlier_multivariable_isolation_forest f df cont ne rs = .ok m →
      m = (f ⟨ne, 2/5, cont, 1, true, rs⟩ (df.map Prod.snd)).map (fun x => decide (x = -1))) ∧
    ((-1 : ℤ) ∉ f ⟨ne, 2/5, cont, 1, true, rs⟩ (df.map Prod.snd) →
      detect_outlier_multivariable_isolation_forest f df cont ne rs = .error "KeyError: -1") := by
  by_cases h : (-1 : ℤ) ∈ f ⟨ne, 2/5, cont, 1, true, rs⟩ (df.map Prod.snd) <;>
    simp [detect_outlier_multivariable_isolation_forest, h, Except.isOk, Except.toBool]

/-- C9 witness: a model predicting `[1, -1, 1]` yields the mask
`[false, true, false]`; the hypothesis of the second conjunct is
discharged at this concrete run. -/
theorem multi_iso_forest_requires_an_anomaly_witness :
    ([false, true, false] : List Bool) =
      ((fun (_ : IsoForestParams) (_ : List (List ℚ)) => [1, -1, 1]) ⟨5, 2/5, 1/100, 1, true, 42⟩
        ([("a", [1, 2, 3])].map Prod.snd)).map (fun x => decide (x = -1)) :=
  (multi_iso_forest_requires_an_anomaly (fun _ _ => [1, -1, 1]) [("a", [1, 2, 3])]
    (1/100) 5 42).2.1 [false, true, false] (by decide)

/-- Both scoring branches map over the array, so the score list keeps
the full length of the masked array. -/
theorem maScores_length (sq : ℚ → ℚ) (ts : MaArr) (hybrid : Bool) :
    (maScores sq ts hybrid).length = ts.length := by
  cases hybrid <;> simp [maScores]

/-- A `some` test value can only come from a nonempty array. -/
theorem test_statistic_some_ne_nil (sq : ℚ → ℚ) (ts : MaArr) (hybrid : Bool) (v : ℚ)
    (h : (calculate_test_statistic sq ts hybrid).2 = some v) : ts ≠ [] := by
  rintro rfl
  cases hybrid <;> simp [calculate_test_statistic, maScores] at h

/-- The fold behind `maArgmax` only ever returns positions drawn from
the enumerated list or from the accumulator. -/
theorem argmaxStep_foldl_lt (l : List (ℕ × Option ℚ)) (acc : Option (ℕ × ℚ)) (N : ℕ)
    (hl : ∀ p ∈ l, p.1 < N) (hacc : ∀ j v, acc = some (j, v) → j < N) :
    ∀ j v, l.foldl argmaxStep acc = some (j, v) → j < N := by
  induction l generalizing acc with
  | nil => intro j v hfold; exact hacc j v hfold
  | cons p l ih =>
    intro j v hfold
    rw [List.foldl_cons] at hfold
    refine ih (argmaxStep acc p) (fun q hq => hl q (List.mem_cons_of_mem _ hq)) ?_ j v hfold
    intro j' v' hstep
    have hpN : p.1 < N := hl p (List.mem_cons_self p l)
    rcases hp2 : p.2 with _ | w
    · simp only [argmaxStep, hp2] at hstep
      exact hacc j' v' hstep
    · rcases hac : acc with _ | ⟨ja, va⟩
      · simp only [argmaxStep, hp2, hac, Option.some.injEq, Prod.mk.injEq] at hstep
        exact hstep.1 ▸ hpN
      · simp only [argmaxStep, hp2, hac] at hstep
        by_cases hlt : va < w
        · rw [if_pos hlt] at hstep
          simp only [Option.some.injEq, Prod.mk.injEq] at hstep
          exact hstep.1 ▸ hpN
        · rw [if_neg hlt] at hstep
          simp only [Option.some.injEq, Prod.mk.injEq] at hstep
          exact hstep.1 ▸ hacc ja va hac

/-- The argmax of a nonempty score list is a valid position. -/
theorem maArgmax_lt_length (xs : MaArr) (h : 0 < xs.length) : maArgmax xs < xs.length := by
  unfold maArgmax
  rcases hbest : xs.enum.foldl argmaxStep none with _ | ⟨j, v⟩
  · simpa using h
  · have hj : j < xs.length := by
      refine argmaxStep_foldl_lt xs.enum none xs.length ?_ (by simp) j v hbest
      rintro ⟨i, x⟩ hp
      exact (List.getElem?_eq_some.mp ((List.mk_mem_enum_iff_getElem? (l := xs)).mp hp)).1
    simpa using hj

/-- The iteration counter counts the iterations. -/
theorem esd_curr_eq (sq : ℚ → ℚ) (tp : ℚ → ℤ → ℚ) (alpha : ℚ) (hybrid : Bool)
    (col : List ℚ) (m : ℕ) : (esdStateAt sq tp alpha hybrid col m).curr = m := by
  induction m with
  | zero => rfl
  | succ m ih => simp [esdStateAt, esdStep, ih]

/-- Masking entries never changes the length of the working array. -/
theorem esd_ts_length (sq : ℚ → ℚ) (tp : ℚ → ℤ → ℚ) (alpha : ℚ) (hybrid : Bool)
    (col : List ℚ) (m : ℕ) :
    (esdStateAt sq tp alpha hybrid col m).ts.length = col.length := by
  induction m with
  | zero => simp [esdStateAt]
  | succ m ih => simp [esdStateAt, esdStep, ih]

/-- `test_statistics` after `m` iterations is exactly the list of the
candidates of iterations `0 .. m-1`, in order. -/
theorem esd_stats_eq (sq : ℚ → ℚ) (tp : ℚ → ℤ → ℚ) (alpha : ℚ) (hybrid : Bool)
    (col : List ℚ) (m : ℕ) :
    (esdStateAt sq tp alpha hybrid col m).stats =
      (List.range m).map (esdCand sq tp alpha hybrid col) := by
  induction m with
  | zero => simp [esdStateAt]
  | succ m ih =>
    rw [List.range_succ, List.map_append]
    simp [esdStateAt, esdStep, ih, esdCand]

/-- Unfolding `esdLastPass` by one iteration. -/
theorem esdLastPass_succ (sq : ℚ → ℚ) (tp : ℚ → ℤ → ℚ) (alpha : ℚ) (hybrid : Bool)
    (col : List ℚ) (m : ℕ) :
    esdLastPass sq tp alpha hybrid col (m + 1) =
      if esdPass sq tp alpha hybrid col m then m
      else esdLastPass sq tp alpha hybrid col m := by
  unfold esdLastPass
  rw [List.range_succ, List.foldl_append]
  rfl

/-- `num_outliers` after `m` iterations is the last iteration index
below `m` at which the test passed (`0` when there is none — and also
when the only pass happened at iteration `0`). -/
theorem esd_numOut_eq (sq : ℚ → ℚ) (tp : ℚ → ℤ → ℚ) (alpha : ℚ) (hybrid : Bool)
    (col : List ℚ) (m : ℕ) :
    (esdStateAt sq tp alpha hybrid col m).numOut = esdLastPass sq tp alpha hybrid col m := by
  induction m with
  | zero => rfl
  | succ m ih =>
    have hcur := esd_curr_eq sq tp alpha hybrid col m
    rw [esdLastPass_succ]
    simp only [esdStateAt, esdStep]
    rw [hcur, ih]
    rfl

/-- A positive last-pass index is a genuine iteration index. -/
theorem esdLastPass_lt (sq : ℚ → ℚ) (tp : ℚ → ℤ → ℚ) (alpha : ℚ) (hybrid : Bool)
    (col : List ℚ) (m : ℕ) (h : 0 < esdLastPass sq tp alpha hybrid col m) :
    esdLastPass sq tp alpha hybrid col m < m := by
  induction m with
  | zero => simp [esdLastPass] at h
  | succ m ih =>
    rw [esdLastPass_succ] at h ⊢
    cases hp : esdPass sq tp alpha hybrid col m with
    | true => simp [hp]
    | false =>
      rw [hp] at h
      simp only [if_neg Bool.false_ne_true]
      exact Nat.lt_succ_of_lt (ih (by simpa using h))

/-- A positive last-pass index exhibits a passing iteration. -/
theorem esdLastPass_pass (sq : ℚ → ℚ) (tp : ℚ → ℤ → ℚ) (alpha : ℚ) (hybrid : Bool)
    (col : List ℚ) (m : ℕ) (h : 0 < esdLastPass sq tp alpha hybrid col m) :
    esdPass sq tp alpha hybrid col (esdLastPass sq tp alpha hybrid col m) = true := by
  induction m with
  | zero => simp [esdLastPass] at h
  | succ m ih =>
    rw [esdLastPass_succ] at h ⊢
    cases hp : esdPass sq tp alpha hybrid col m with
    | true => simp [hp]
    | false =>
      rw [hp] at h
      simp only [if_neg Bool.false_ne_true]
      exact ih (by simpa using h)

/-- A passing iteration forces the column to be nonempty. -/
theorem esdPass_length_pos (sq : ℚ → ℚ) (tp : ℚ → ℤ → ℚ) (alpha : ℚ) (hybrid : Bool)
    (col : List ℚ) (k : ℕ) (h : esdPass sq tp alpha hybrid col k = true) :
    0 < col.length := by
  unfold esdPass esdPassOf at h
  rcases hr : (calculate_test_statistic sq (esdStateAt sq tp alpha hybrid col k).ts hybrid).2
    with _ | v
  · rw [hr] at h; simp at h
  · have hne := test_statistic_some_ne_nil sq _ hybrid v hr
    have : 0 < (esdStateAt sq tp alpha hybrid col k).ts.length :=
      List.length_pos.mpr hne
    rwa [esd_ts_length] at this

/-- Every candidate position is a valid row index (nonempty column). -/
theorem esdCand_lt (sq : ℚ → ℚ) (tp : ℚ → ℤ → ℚ) (alpha : ℚ) (hybrid : Bool)
    (col : List ℚ) (k : ℕ) (h : 0 < col.length) :
    esdCand sq tp alpha hybrid col k < col.length := by
  unfold esdCand calculate_test_statistic
  have hlen : 0 < (maScores sq (esdStateAt sq tp alpha hybrid col k).ts hybrid).length := by
    rw [maScores_length, esd_ts_length]; exact h
  have := maArgmax_lt_length _ hlen
  rw [maScores_length, esd_ts_length] at this
  exact this

/-- After `m` iterations an in-range entry of the working array is
masked exactly when its position was examined as a candidate (the
initial array carries no mask; `ts[test_idx] = np.ma.masked` is the
only masking operation). -/
theorem esd_ts_none_iff (sq : ℚ → ℚ) (tp : ℚ → ℤ → ℚ) (alpha : ℚ) (hybrid : Bool)
    (col : List ℚ) (m : ℕ) (i : ℕ) (hi : i < col.length) :
    ((esdStateAt sq tp alpha hybrid col m).ts.getD i none = none ↔
      i ∈ (esdStateAt sq tp alpha hybrid col m).stats) := by
  induction m with
  | zero =>
    simp [esdStateAt, List.getD_eq_getElem?_getD, List.getElem?_eq_getElem hi]
  | succ m ih =>
    have hn : 0 < col.length := Nat.lt_of_le_of_lt (Nat.zero_le i) hi
    have hcand := esdCand_lt sq tp alpha hybrid col m hn
    have hlen := esd_ts_length sq tp alpha hybrid col m
    simp only [esdStateAt, esdStep]
    by_cases hic : i = (calculate_test_statistic sq (esdStateAt sq tp alpha hybrid col m).ts
        hybrid).1
    · subst hic
      constructor
      · intro _; simp
      · intro _
        rw [List.getD_eq_getElem?_getD, List.getElem?_set_self (by
          rw [hlen]; exact hcand)]
        rfl
    · rw [List.getD_eq_getElem?_getD,
        List.getElem?_set_ne (fun he => hic he.symm), ← List.getD_eq_getElem?_getD, ih]
      simp [List.mem_append, hic]

/-- The ESD mask always has one entry per row of the input column. -/
theorem esdMaskCol_length (sq : ℚ → ℚ) (tp : ℚ → ℤ → ℚ) (max_anomalies : ℕ) (alpha : ℚ)
    (hybrid : Bool) (col : List ℚ) :
    (esdMaskCol sq tp max_anomalies alpha hybrid col).length = col.length := by
  simp [esdMaskCol]

/-- The ESD mask entry at an in-range position. -/
theorem esdMaskCol_getElem (sq : ℚ → ℚ) (tp : ℚ → ℤ → ℚ) (max_anomalies : ℕ) (alpha : ℚ)
    (hybrid : Bool) (col : List ℚ) (i : ℕ) (hi : i < col.length) :
    (esdMaskCol sq tp max_anomalies alpha hybrid col)[i]? = some (
      if i ∈ esdAnomalous sq tp max_anomalies alpha hybrid col then some true
      else if (esdStateAt sq tp alpha hybrid col max_anomalies).ts.getD i none = none then none
      else some false) := by
  simp only [esdMaskCol]
  rw [List.getElem?_map, List.getElem?_range hi]
  rfl

/-- Anomalous positions under a positive last pass: the candidates of
iterations `0 .. L`. -/
theorem esdAnomalous_of_pos (sq : ℚ → ℚ) (tp : ℚ → ℤ → ℚ) (max_anomalies : ℕ) (alpha : ℚ)
    (hybrid : Bool) (col : List ℚ)
    (h : 0 < esdLastPass sq tp alpha hybrid col max_anomalies) :
    esdAnomalous sq tp max_anomalies alpha hybrid col =
      (List.range (esdLastPass sq tp alpha hybrid col max_anomalies + 1)).map
        (esdCand sq tp alpha hybrid col) := by
  have hnum := esd_numOut_eq sq tp alpha hybrid col max_anomalies
  have hlt := esdLastPass_lt sq tp alpha hybrid col max_anomalies h
  simp only [esdAnomalous]
  rw [hnum, if_pos h, esd_stats_eq, ← List.map_take, List.take_range,
    Nat.min_eq_left (Nat.succ_le_of_lt hlt)]

/-- Anomalous positions are empty when the last pass index is zero
(no pass at all, or a pass at iteration 0 only). -/
theorem esdAnomalous_of_zero (sq : ℚ → ℚ) (tp : ℚ → ℤ → ℚ) (max_anomalies : ℕ) (alpha : ℚ)
    (hybrid : Bool) (col : List ℚ)
    (h : esdLastPass sq tp alpha hybrid col max_anomalies = 0) :
    esdAnomalous sq tp max_anomalies alpha hybrid col = [] := by
  have hnum := esd_numOut_eq sq tp alpha hybrid col max_anomalies
  simp only [esdAnomalous]
  rw [hnum, h]
  simp

/-- C2 (amended): `num_outliers` tracks the LAST iteration index at
which the test passed, and an entry of the ESD mask is flagged `True`
exactly when that index `L` is positive and the entry's position is a
candidate of one of the iterations `0 .. L`.  In particular the
flagged set is empty both when the test never passed and when its only
pass happened at iteration 0 (the source guard
`if num_outliers > 0 else []` cannot tell the two apart), and it is
non-empty whenever the test passed at some iteration `k ≥ 1`. -/
theorem esd_flagged_characterization (sq : ℚ → ℚ) (tp : ℚ → ℤ → ℚ) (max_anomalies : ℕ)
    (alpha : ℚ) (hybrid : Bool) (col : List ℚ) :
    (esdStateAt sq tp alpha hybrid col max_anomalies).numOut =
      esdLastPass sq tp alpha hybrid col max_anomalies ∧
    ∀ i, (esdMaskCol sq tp max_anomalies alpha hybrid col)[i]? = some (some true) ↔
      (0 < esdLastPass sq tp alpha hybrid col max_anomalies ∧
        i ∈ (List.range (esdLastPass sq tp alpha hybrid col max_anomalies + 1)).map
          (esdCand sq tp alpha hybrid col)) := by
  refine ⟨esd_numOut_eq sq tp alpha hybrid col max_anomalies, ?_⟩
  intro i
  by_cases hL : 0 < esdLastPass sq tp alpha hybrid col max_anomalies
  · have hpass := esdLastPass_pass sq tp alpha hybrid col max_anomalies hL
    have hn : 0 < col.length := esdPass_length_pos sq tp alpha hybrid col _ hpass
    have hanom := esdAnomalous_of_pos sq tp max_anomalies alpha hybrid col hL
    constructor
    · intro hmask
      refine ⟨hL, ?_⟩
      by_cases hi : i < col.length
      · rw [esdMaskCol_getElem sq tp max_anomalies alpha hybrid col i hi] at hmask
        by_cases hmem : i ∈ esdAnomalous sq tp max_anomalies alpha hybrid col
        · rwa [hanom] at hmem
        · rw [if_neg hmem] at hmask
          by_cases hnone : (esdStateAt sq tp alpha hybrid col max_anomalies).ts.getD i none
              = none
          · rw [if_pos hnone] at hmask; simp at hmask
          · rw [if_neg hnone] at hmask; simp at hmask
      · exfalso
        have : (esdMaskCol sq tp max_anomalies alpha hybrid col)[i]? = none := by
          apply List.getElem?_eq_none
          rw [esdMaskCol_length]
          omega
        rw [this] at hmask
        exact Option.noConfusion hmask
    · rintro ⟨-, hmem⟩
      have hmem' : i ∈ esdAnomalous sq tp max_anomalies alpha hybrid col := by
        rwa [hanom]
      have hi : i < col.length := by
        simp only [List.mem_map, List.mem_range] at hmem
        obtain ⟨k, -, rfl⟩ := hmem
        exact esdCand_lt sq tp alpha hybrid col k hn
      rw [esdMaskCol_getElem sq tp max_anomalies alpha hybrid col i hi, if_pos hmem']
  · have hanom := esdAnomalous_of_zero sq tp max_anomalies alpha hybrid col
      (Nat.eq_zero_of_not_pos hL)
    constructor
    · intro hmask
      exfalso
      by_cases hi : i < col.length
      · rw [esdMaskCol_getElem sq tp max_anomalies alpha hybrid col i hi, hanom] at hmask
        simp only [List.not_mem_nil, if_false] at hmask
        by_cases hnone : (esdStateAt sq tp alpha hybrid col max_anomalies).ts.getD i none
            = none
        · rw [if_pos hnone] at hmask; simp at hmask
        · rw [if_neg hnone] at hmask; simp at hmask
      · have : (esdMaskCol sq tp max_anomalies alpha hybrid col)[i]? = none := by
          apply List.getElem?_eq_none
          rw [esdMaskCol_length]
          omega
        rw [this] at hmask
        exact Option.noConfusion hmask
    · rintro ⟨h0, -⟩
      exact (hL h0).elim

/-- C2 counterexample: on the column `[0,0,0,1]` with
`max_anomalies = 1`, `alpha = 0.05`, the Grubbs test passes at
iteration 0 (score `1.732… > critical 1.48…`), yet the flagged set is
empty — `num_outliers` is set to the iteration index `0` and the guard
`if num_outliers > 0 else []` discards the recorded candidate.  The
external sqrt and t-quantile are the documented rational stand-ins
`sqrtRef` / `tppfRef`; the compared quantities are far enough apart
that the true floating-point run takes the same branches. -/
theorem esd_pass_at_zero_flags_nothing :
    esdPass sqrtRef tppfRef (1/20) false [0, 0, 0, 1] 0 = true ∧
    esdMaskCol sqrtRef tppfRef 1 (1/20) false [0, 0, 0, 1] =
      [some false, some false, some false, none] ∧
    idxOB (esdMaskCol sqrtRef tppfRef 1 (1/20) false [0, 0, 0, 1]) = [] := by
  refine ⟨by decide, by decide, by decide⟩

/-- C1 counterexample: `detect_outlier_generalized_esd` contains no
`max_anomalies >= n/2` check (the `ValueError` exists only in the
commented-out `seasonal_esd`), so on the 4-row column `[0,0,1,0]` with
`max_anomalies = 2 ≥ 4/2` the call completes normally and produces a
4-entry mask instead of failing. -/
theorem esd_no_validation_counterexample :
    ((([0, 0, 1, 0] : List ℚ).length : ℚ) / 2 ≤ (2 : ℚ)) ∧
    esdMaskCol sqrtRef tppfRef 2 (1/20) false [0, 0, 1, 0] =
      [none, some false, none, some false] := by
  refine ⟨by decide, by decide⟩

/-- C1 (amended): the Generalized ESD detector performs no validation
of `max_anomalies` at all; even when `max_anomalies ≥ n/2` the loop
runs to completion and returns a mask with one entry per input row. -/
theorem esd_runs_despite_large_max (sq : ℚ → ℚ) (tp : ℚ → ℤ → ℚ) (max_anomalies : ℕ)
    (alpha : ℚ) (hybrid : Bool) (col : List ℚ)
    (_h : (col.length : ℚ) / 2 ≤ (max_anomalies : ℚ)) :
    (esdMaskCol sq tp max_anomalies alpha hybrid col).length = col.length :=
  esdMaskCol_length sq tp max_anomalies alpha hybrid col

/-- C1 witness. -/
theorem esd_runs_despite_large_max_witness :
    ((([5, 7] : List ℚ).length : ℚ) / 2 ≤ (1 : ℚ)) ∧
    (esdMaskCol (fun _ => 0) (fun _ _ => 0) 1 (1/20) false [5, 7]).length =
      ([5, 7] : List ℚ).length :=
  ⟨by decide, esd_runs_despite_large_max (fun _ => 0) (fun _ _ => 0) 1 (1/20) false [5, 7]
    (by decide)⟩

/-- C3 counterexample: on `[0,1,0,0]` with `max_anomalies = 1` the test
passes only at iteration 0, so position 1 — examined as a candidate but
not confirmed — keeps the mask inherited through `np.zeros_like` and
lands in the pandas column as a null (`none`), not a boolean. -/
theorem esd_mask_null_counterexample :
    esdMaskCol sqrtRef tppfRef 1 (1/20) false [0, 1, 0, 0] =
      [some false, none, some false, some false] ∧
    1 ∈ (esdStateAt sqrtRef tppfRef (1/20) false [0, 1, 0, 0] 1).stats := by
  refine ⟨by decide, by decide⟩

/-- C3 (amended): every detector returns one mask entry per input row
(for the model-backed detectors, provided the external model predicts
one label per row, which `sklearn` guarantees); the SD, IQR,
isolation-forest and multivariate masks are boolean everywhere (their
embedded type is `Bool`), but a Generalized ESD entry is null exactly
at the positions examined as candidates and not confirmed as
outliers. -/
theorem masks_one_entry_per_row_and_esd_nulls
    (sq : ℚ → ℚ) (tp : ℚ → ℤ → ℚ) (alpha : ℚ) (hybrid : Bool) (col : List ℚ)
    (max_anomalies : ℕ) (iqrM sdM : ℚ) (of : OFrac) (kw : IFKwargs)
    (f : IFKwargs → List ℚ → List ℤ)
    (fm : IsoForestParams → List (List ℚ) → List ℤ) (df : Df) (cont : ℚ) (ne : ℕ)
    (rs : ℤ) (nrows : ℕ)
    (hf : ∀ kw2 ts, (f kw2 ts).length = ts.length)
    (hfm : (fm ⟨ne, 2/5, cont, 1, true, rs⟩ (df.map Prod.snd)).length = nrows) :
    (sdMaskCol sq sdM col).length = col.length ∧
    (iqrMaskCol iqrM col).length = col.length ∧
    (isoMaskCol sq f of kw col).length = col.length ∧
    (esdMaskCol sq tp max_anomalies alpha hybrid col).length = col.length ∧
    (∀ m, detect_outlier_multivariable_isolation_forest fm df cont ne rs = .ok m →
      m.length = nrows) ∧
    (∀ i, (esdMaskCol sq tp max_anomalies alpha hybrid col)[i]? = some none ↔
      (i < col.length ∧ i ∈ (esdStateAt sq tp alpha hybrid col max_anomalies).stats ∧
        i ∉ esdAnomalous sq tp max_anomalies alpha hybrid col)) := by
  refine ⟨by simp [sdMaskCol], by simp [iqrMaskCol],
    by simp [isoMaskCol, hf, standardScale],
    esdMaskCol_length sq tp max_anomalies alpha hybrid col, ?_, ?_⟩
  · intro m hm
    by_cases hmem : (-1 : ℤ) ∈ fm ⟨ne, 2/5, cont, 1, true, rs⟩ (df.map Prod.snd)
    · simp only [detect_outlier_multivariable_isolation_forest, if_pos hmem,
        Except.ok.injEq] at hm
      rw [← hm, List.length_map]
      exact hfm
    · simp [detect_outlier_multivariable_isolation_forest, if_neg hmem] at hm
  · intro i
    constructor
    · intro hmask
      by_cases hi : i < col.length
      · rw [esdMaskCol_getElem sq tp max_anomalies alpha hybrid col i hi] at hmask
        by_cases hmem : i ∈ esdAnomalous sq tp max_anomalies alpha hybrid col
        · rw [if_pos hmem] at hmask; simp at hmask
        · rw [if_neg hmem] at hmask
          by_cases hnone : (esdStateAt sq tp alpha hybrid col max_anomalies).ts.getD i none
              = none
          · exact ⟨hi, (esd_ts_none_iff sq tp alpha hybrid col max_anomalies i hi).mp hnone,
              hmem⟩
          · rw [if_neg hnone] at hmask; simp at hmask
      · exfalso
        have : (esdMaskCol sq tp max_anomalies alpha hybrid col)[i]? = none := by
          apply List.getElem?_eq_none
          rw [esdMaskCol_length]
          omega
        rw [this] at hmask
        exact Option.noConfusion hmask
    · rintro ⟨hi, hstats, hnotanom⟩
      rw [esdMaskCol_getElem sq tp max_anomalies alpha hybrid col i hi, if_neg hnotanom,
        if_pos ((esd_ts_none_iff sq tp alpha hybrid col max_anomalies i hi).mpr hstats)]

/-- C3 witness: a tiny concrete instance exercising every conjunct,
including the multivariate branch on a model predicting one label per
row. -/
theorem masks_one_entry_per_row_and_esd_nulls_witness :
    (sdMaskCol (fun _ => 0) 2 [1, 2]).length = ([1, 2] : List ℚ).length ∧
    ([true, false] : List Bool).length = 2 :=
  ⟨(masks_one_entry_per_row_and_esd_nulls (fun _ => 0) (fun _ _ => 0) (1/20) false [1, 2]
      1 (3/2) 2 (.num 0) ⟨none, none, []⟩ (fun _ ts => ts.map (fun _ => 1))
      (fun _ _ => [-1, 1]) [("a", [1, 2])] (1/100) 5 42 2
      (fun _ ts => by simp) (by decide)).1,
   (masks_one_entry_per_row_and_esd_nulls (fun _ => 0) (fun _ _ => 0) (1/20) false [1, 2]
      1 (3/2) 2 (.num 0) ⟨none, none, []⟩ (fun _ ts => ts.map (fun _ => 1))
      (fun _ _ => [-1, 1]) [("a", [1, 2])] (1/100) 5 42 2
      (fun _ ts => by simp) (by decide)).2.2.2.2.1 [true, false] (by decide)⟩

/-- Population mean of the active values, written from the claim: the
sum of the active values over their count. -/
def popMeanActive (ts : MaArr) : ℚ :=
  (ts.filterMap id).sum / ((ts.filterMap id).length : ℚ)

/-- Population variance of the active values with `ddof = 0`, written
from the claim: the sum of squared deviations divided by the count
(not by count − 1). -/
def popVarActive (ts : MaArr) : ℚ :=
  ((ts.filterMap id).map (fun y => (y - popMeanActive ts) ^ 2)).sum /
    ((ts.filterMap id).length : ℚ)

/-- A returned score decomposes through the scored entry. -/
theorem test_statistic_formula (sq : ℚ → ℚ) (ts : MaArr) (idx : ℕ) (v : ℚ)
    (hres : calculate_test_statistic sq ts false = (idx, some v))
    (hnn : 0 ≤ sq (maVar ts)) :
    ∃ x, ts.getD idx none = some x ∧ v = |x - maMean ts| / sq (maVar ts) := by
  have h1 : maArgmax (maScores sq ts false) = idx := congrArg Prod.fst hres
  have h2 : (maScores sq ts false).getD (maArgmax (maScores sq ts false)) none = some v :=
    congrArg Prod.snd hres
  rw [h1] at h2
  have hsc : maScores sq ts false =
      ts.map (Option.map (fun x => |(x - maMean ts) / sq (maVar ts)|)) := by
    simp [maScores]
  rw [hsc, List.getD_eq_getElem?_getD, List.getElem?_map] at h2
  rcases hts : ts[idx]? with _ | o
  · rw [hts] at h2
    exact Option.noConfusion (show (none : Option ℚ) = some v from h2)
  · rw [hts] at h2
    rcases o with _ | x
    · exact Option.noConfusion (show (none : Option ℚ) = some v from h2)
    · have h2' : |(x - maMean ts) / sq (maVar ts)| = v :=
        Option.some.inj (show some |(x - maMean ts) / sq (maVar ts)| = some v from h2)
      refine ⟨x, ?_, ?_⟩
      · rw [List.getD_eq_getElem?_getD, hts]; rfl
      · rw [← h2', abs_div, abs_of_nonneg hnn]

/-- C10: in non-hybrid mode the ESD test statistic at every iteration
`k` of a run is `|x − mean| / std`, where `mean` and `std` are the
population mean and the `ddof = 0` population standard deviation
(`sq` applied to the sum of squared deviations over the COUNT of the
currently active values); the same convention holds at every iteration
because `k` is universally quantified over the run's states. -/
theorem esd_statistic_population_convention (sq : ℚ → ℚ) (tp : ℚ → ℤ → ℚ) (alpha : ℚ)
    (col : List ℚ) (k idx : ℕ) (v : ℚ)
    (hres : calculate_test_statistic sq (esdStateAt sq tp alpha false col k).ts false
      = (idx, some v))
    (hnn : 0 ≤ sq (maVar (esdStateAt sq tp alpha false col k).ts)) :
    ∃ x, (esdStateAt sq tp alpha false col k).ts.getD idx none = some x ∧
      v = |x - popMeanActive (esdStateAt sq tp alpha false col k).ts| /
        sq (popVarActive (esdStateAt sq tp alpha false col k).ts) := by
  obtain ⟨x, hx, hv⟩ := test_statistic_formula sq _ idx v hres hnn
  exact ⟨x, hx, hv⟩

/-- C10 witness: the state at iteration 0 on `[0,0,1,0]` with
`sq = id`: the statistic is `(2, 4)` and `4 = |1 - 1/4| / (3/16)`. -/
theorem esd_statistic_population_convention_witness :
    ∃ x, (esdStateAt (fun q => q) (fun _ _ => 0) (1/20) false [0, 0, 1, 0] 0).ts.getD 2 none
        = some x ∧
      (4 : ℚ) = |x - popMeanActive (esdStateAt (fun q => q) (fun _ _ => 0) (1/20) false
          [0, 0, 1, 0] 0).ts| /
        (fun q => q) (popVarActive (esdStateAt (fun q => q) (fun _ _ => 0) (1/20) false
          [0, 0, 1, 0] 0).ts) :=
  esd_statistic_population_convention (fun q => q) (fun _ _ => 0) (1/20) [0, 0, 1, 0] 0 2 4
    (by decide) (by decide)

/-- A valid `outlier_fraction` makes the univariate isolation-forest
detector succeed with the per-column masks. -/
theorem iso_ok_of_valid (sq : ℚ → ℚ) (f : IFKwargs → List ℚ → List ℤ) (df : Df)
    (of : OFrac) (kw : IFKwargs) (hv : specValidFraction of = true) :
    detect_outlier_isolation_forest sq f df of kw =
      .ok (df.map (fun p => (p.1, isoMaskCol sq f of kw p.2))) := by
  cases of with
  | str s =>
    have h : s = "auto" := of_decide_eq_true hv
    simp only [detect_outlier_isolation_forest]
    rw [if_pos h]
  | num q =>
    have h : (0:ℚ) ≤ q ∧ q ≤ 1/2 := of_decide_eq_true hv
    simp only [detect_outlier_isolation_forest]
    rw [if_pos h]

/-- The recorded percentage of a boolean mask times the column length
is one hundred times the flagged count (the `mean() * 100`
relation, stated multiplicatively to cover the empty column). -/
theorem pctB_mul (mask : List Bool) :
    pctB mask * (mask.length : ℚ) = 100 * (mask.countP id : ℚ) := by
  by_cases h : (mask.length : ℚ) = 0
  · have : mask = [] := List.length_eq_zero.mp (by exact_mod_cast h)
    subst this
    simp [pctB]
  · unfold pctB
    field_simp
    ring

/-- The same relation for a nullable mask column: pandas `mean()` with
`skipna=True` divides by the count of non-null entries. -/
theorem pctOB_mul (mask : List (Option Bool)) :
    pctOB mask * ((mask.filterMap id).length : ℚ) =
      100 * ((mask.filterMap id).countP id : ℚ) := by
  by_cases h : ((mask.filterMap id).length : ℚ) = 0
  · have h0 : mask.filterMap id = [] := List.length_eq_zero.mp (by exact_mod_cast h)
    simp [pctOB, h0]
  · unfold pctOB
    field_simp
    ring

/-- Membership in the recorded index list of a boolean mask is exactly
being flagged `True` in the mask. -/
theorem idxB_mem (mask : List Bool) (j : ℕ) : j ∈ idxB mask ↔ mask[j]? = some true := by
  constructor
  · intro hj
    simp only [idxB, List.mem_filterMap] at hj
    obtain ⟨⟨a, b⟩, hp, hpe⟩ := hj
    cases b
    · simp at hpe
    · simp only [if_true] at hpe
      have : a = j := by simpa using hpe
      subst this
      exact List.mk_mem_enum_iff_getElem?.mp hp
  · intro hj
    simp only [idxB, List.mem_filterMap]
    exact ⟨(j, true), List.mk_mem_enum_iff_getElem?.mpr hj, by simp⟩

/-- Membership in the recorded index list of a nullable mask is
exactly being flagged `some True` (the `== True` comparison is false on
nulls). -/
theorem idxOB_mem (mask : List (Option Bool)) (j : ℕ) :
    j ∈ idxOB mask ↔ mask[j]? = some (some true) := by
  constructor
  · intro hj
    simp only [idxOB, List.mem_filterMap] at hj
    obtain ⟨⟨a, b⟩, hp, hpe⟩ := hj
    by_cases hb : b = some true
    · subst hb
      have : a = j := by simpa using hpe
      subst this
      exact List.mk_mem_enum_iff_getElem?.mp hp
    · rw [if_neg hb] at hpe
      exact Option.noConfusion hpe
  · intro hj
    simp only [idxOB, List.mem_filterMap]
    exact ⟨(j, some true), List.mk_mem_enum_iff_getElem?.mpr hj, by simp⟩

/-- C4 (amended): for a valid `outlier_fraction`, the summary succeeds
and every `(column, method)` entry records exactly the index set
flagged by that method's mask, and a percentage satisfying
`pct * divisor = 100 * flagged-count`, where the divisor is the mask
column length for the IQR, SD and isolation-forest methods, but the
NON-NULL entry count for the Generalized ESD method (pandas `mean()`
skips the NaN entries that ESD leaves on examined-but-unconfirmed
positions), which differs from `100 * flagged / total` whenever such
nulls exist alongside flagged rows. -/
theorem summary_entries_match_masks (sq : ℚ → ℚ) (tp : ℚ → ℤ → ℚ)
    (f : IFKwargs → List ℚ → List ℤ) (df : Df) (iqrM sdM : ℚ) (of : OFrac)
    (esdP : EsdParams) (hv : specValidFraction of = true) :
    ∃ r : List (String × ColSummary),
      summary sq tp f df iqrM sdM of esdP = .ok r ∧ r.length = df.length ∧
      ∀ (i : ℕ) (name : String) (col : List ℚ), df[i]? = some (name, col) →
        ∃ e : ColSummary, r[i]? = some (name, e) ∧
          e.iqr.pct * ((iqrMaskCol iqrM col).length : ℚ)
              = 100 * ((iqrMaskCol iqrM col).countP id : ℚ) ∧
          (∀ j, j ∈ e.iqr.idx ↔ (iqrMaskCol iqrM col)[j]? = some true) ∧
          e.sd.pct * ((sdMaskCol sq sdM col).length : ℚ)
              = 100 * ((sdMaskCol sq sdM col).countP id : ℚ) ∧
          (∀ j, j ∈ e.sd.idx ↔ (sdMaskCol sq sdM col)[j]? = some true) ∧
          e.iso.pct * ((isoMaskCol sq f of ⟨none, none, []⟩ col).length : ℚ)
              = 100 * ((isoMaskCol sq f of ⟨none, none, []⟩ col).countP id : ℚ) ∧
          (∀ j, j ∈ e.iso.idx ↔ (isoMaskCol sq f of ⟨none, none, []⟩ col)[j]? = some true) ∧
          e.esd.pct *
              (((esdMaskCol sq tp esdP.max_anomalies esdP.alpha esdP.hybrid col).filterMap
                id).length : ℚ)
              = 100 * (((esdMaskCol sq tp esdP.max_anomalies esdP.alpha esdP.hybrid
                col).filterMap id).countP id : ℚ) ∧
          (∀ j, j ∈ e.esd.idx ↔
            (esdMaskCol sq tp esdP.max_anomalies esdP.alpha esdP.hybrid col)[j]?
              = some (some true)) := by
  refine ⟨df.map (fun p =>
    (p.1,
      { iqr := ⟨pctB (iqrMaskCol iqrM p.2), idxB (iqrMaskCol iqrM p.2)⟩
        sd := ⟨pctB (sdMaskCol sq sdM p.2), idxB (sdMaskCol sq sdM p.2)⟩
        iso := ⟨pctB (isoMaskCol sq f of ⟨none, none, []⟩ p.2),
          idxB (isoMaskCol sq f of ⟨none, none, []⟩ p.2)⟩
        esd := ⟨pctOB (esdMaskCol sq tp esdP.max_anomalies esdP.alpha esdP.hybrid p.2),
          idxOB (esdMaskCol sq tp esdP.max_anomalies esdP.alpha esdP.hybrid p.2)⟩ })),
    ?_, by simp, ?_⟩
  · simp only [summary, iso_ok_of_valid sq f df of ⟨none, none, []⟩ hv]
  · intro i name col hdf
    refine ⟨_, by rw [List.getElem?_map, hdf]; rfl,
      pctB_mul _, idxB_mem _, pctB_mul _, idxB_mem _, pctB_mul _, idxB_mem _,
      pctOB_mul _, idxOB_mem _⟩

/-- C4 witness: the theorem applied to a one-column table with the
model stand-ins of the reference run. -/
theorem summary_entries_match_masks_witness :
    ∃ r : List (String × ColSummary),
      summary sqrtC4 tppfC4 fitPC4 [("c", [0, 0, 0, 0, 1, 2])] (3/2) 3 (.str "auto")
        ⟨3, 1/20, false⟩ = .ok r ∧ r.length = 1 :=
  ⟨(summary_entries_match_masks sqrtC4 tppfC4 fitPC4 [("c", [0, 0, 0, 0, 1, 2])]
      (3/2) 3 (.str "auto") ⟨3, 1/20, false⟩ (by decide)).choose,
   (summary_entries_match_masks sqrtC4 tppfC4 fitPC4 [("c", [0, 0, 0, 0, 1, 2])]
      (3/2) 3 (.str "auto") ⟨3, 1/20, false⟩ (by decide)).choose_spec.1,
   (summary_entries_match_masks sqrtC4 tppfC4 fitPC4 [("c", [0, 0, 0, 0, 1, 2])]
      (3/2) 3 (.str "auto") ⟨3, 1/20, false⟩ (by decide)).choose_spec.2.1⟩

/-- C4 counterexample: on the summary reference run the Generalized
ESD entry records percentage `40` with flagged keys `[4, 5]`, while
`100 * flagged / total-rows = 100 * 2 / 6 = 33.3…` — the divisor the
source actually uses is the non-null count `5`, not the row count
`6`. -/
theorem summary_esd_percentage_counterexample :
    summary sqrtC4 tppfC4 fitPC4 [("c", [0, 0, 0, 0, 1, 2])] (3/2) 3 (.str "auto")
        ⟨3, 1/20, false⟩ =
      .ok [("c", ⟨⟨50/3, [5]⟩, ⟨0, []⟩, ⟨0, []⟩, ⟨40, [4, 5]⟩⟩)] ∧
    ¬ ((40 : ℚ) = 100 * (([4, 5] : List ℕ).length : ℚ) /
        (([0, 0, 0, 0, 1, 2] : List ℚ).length : ℚ)) := by
  refine ⟨by decide, by decide⟩
